import Mathlib

/-!
Verification of the passgen service core (`src/passgen/app.py`): the
sliding-window rate limiter `check_rate_limit`, the password generator
`generate_password`, and the `/api/generate` handler `api_generate`.

Modelling conventions:
* Timestamps are `Int` (unix seconds).  Python's `int(x)` truncation in the
  retry-after computation is exact on integer-valued inputs, so the model
  computes the plain integer difference.
* The module-level dict `rate_buckets` is modelled as a total function
  `String → List Int`; a key that was never inserted maps to `[]`, which is
  exactly what `if ip not in rate_buckets: rate_buckets[ip] = deque()`
  establishes before any access.
* Randomness: `random.choice` and `random.shuffle` consume values from an
  explicit stream `List Nat`.  `choice g` reduces the next stream value
  modulo `g.length`; `shuffle` is the Fisher-Yates loop CPython runs
  (`for i in reversed(range(1, len(x))): j = randbelow(i+1); swap x[i] x[j]`),
  with `j` taken from the stream modulo `i+1`.  An exhausted stream yields 0.
-/

namespace Passgen

/-! ### Rate limiter (`check_rate_limit`, app.py lines 81-107) -/

abbrev RateState := String → List Int

def RATE_LIMIT_WINDOW : Int := 60

def PUBLIC_RATE_LIMIT : Int := 60

def TRUSTED_RATE_LIMIT : Int := 300

def API_KEY : String := "CHANGE_ME_API_KEY"

/-- The pruning loop
`while bucket and now - bucket[0] > RATE_LIMIT_WINDOW: bucket.popleft()`,
parameterised by the window. -/
def prune_bucket (window now : Int) : List Int → List Int
  | [] => []
  | t :: rest => if now - t > window then prune_bucket window now rest else t :: rest

/-- Body of `check_rate_limit` with the window and the selected limit as
parameters (in the source they are the module constants `RATE_LIMIT_WINDOW`
and `TRUSTED_RATE_LIMIT if is_trusted else PUBLIC_RATE_LIMIT`).  Returns the
`(allowed, retry_after)` pair together with the updated bucket map.  The
reject branch reads `bucket[0]`; with a positive limit the pruned bucket is
nonempty there, so `headD 0` agrees with the source. -/
def check_rate_limit_with (window limit : Int) (st : RateState) (ip : String) (now : Int) :
    (Bool × Option Int) × RateState :=
  let bucket := prune_bucket window now (st ip)
  if limit ≤ (bucket.length : Int) then
    ((false, some (window - (now - bucket.headD 0))), fun k => if k = ip then bucket else st k)
  else
    ((true, none), fun k => if k = ip then bucket ++ [now] else st k)

/-- `check_rate_limit(ip, is_trusted)` with `now` passed explicitly
(the source reads `time.time()`). -/
def check_rate_limit (st : RateState) (ip : String) (is_trusted : Bool) (now : Int) :
    (Bool × Option Int) × RateState :=
  check_rate_limit_with RATE_LIMIT_WINDOW
    (if is_trusted then TRUSTED_RATE_LIMIT else PUBLIC_RATE_LIMIT) st ip now

/-! ### Character classes (`string.ascii_lowercase` etc.) -/

def ascii_lowercase : List Char := "abcdefghijklmnopqrstuvwxyz".toList

def ascii_uppercase : List Char := "ABCDEFGHIJKLMNOPQRSTUVWXYZ".toList

def digits : List Char := "0123456789".toList

/-- `string.punctuation`, all 32 ASCII punctuation characters in order. -/
def punctuation : List Char :=
  ['!', '\x22', '#', '$', '%', '&', '\x27', '(', ')', '*', '+', ',', '-', '.', '/',
   ':', ';', '<', '=', '>', '?', '@', '[', '\\', ']', '^', '_', '\x60', '\x7b', '|', '\x7d', '~']

/-! ### Randomness stream -/

def next_rand : List Nat → Nat × List Nat
  | [] => (0, [])
  | n :: rest => (n, rest)

/-- `random.choice(g)`: pick the next stream value modulo `g.length`.
Only ever applied to nonempty alphabets in the source. -/
def choice (g : List Char) (rng : List Nat) : Char × List Nat :=
  let (n, rng') := next_rand rng
  (g.getD (n % g.length) 'a', rng')

/-- Swap positions `i` and `j` of a list (`x[i], x[j] = x[j], x[i]`).
In the shuffle both indices are always in bounds. -/
def list_swap (xs : List Char) (i j : Nat) : List Char :=
  if h : i < xs.length ∧ j < xs.length then
    (xs.set i (xs.get ⟨j, h.2⟩)).set j (xs.get ⟨i, h.1⟩)
  else xs

/-- Fisher-Yates iterations for `i = k, k-1, ..., 1` (counter is `i` itself). -/
def shuffle_aux : List Char → List Nat → Nat → List Char × List Nat
  | xs, rng, 0 => (xs, rng)
  | xs, rng, Nat.succ k =>
    let (n, rng') := next_rand rng
    shuffle_aux (list_swap xs (Nat.succ k) (n % (Nat.succ k + 1))) rng' k

/-- `random.shuffle(x)`. -/
def shuffle (xs : List Char) (rng : List Nat) : List Char × List Nat :=
  shuffle_aux xs rng (xs.length - 1)

/-! ### Password generation (`generate_password`, app.py lines 114-154) -/

/-- The loop `for group in required_groups: password_chars.append(random.choice(group))`. -/
def pick_required : List (List Char) → List Nat → List Char × List Nat
  | [], rng => ([], rng)
  | g :: gs, rng =>
    let (c, rng') := choice g rng
    let (rest, rng'') := pick_required gs rng'
    (c :: rest, rng'')

/-- The loop `for _ in range(len(password_chars), length): password_chars.append(random.choice(chars))`,
appending `k` draws from `chars` to `acc`. -/
def fill_chars (chars : List Char) : Nat → List Char → List Nat → List Char × List Nat
  | 0, acc, rng => (acc, rng)
  | Nat.succ k, acc, rng =>
    let (c, rng') := choice chars rng
    fill_chars chars k (acc ++ [c]) rng'

/-- `generate_password(length, upper, nums, special)`.  Returns the password
(as a list of characters) or the `ValueError` message, plus the remaining
randomness stream. -/
def generate_password (length : Nat) (upper nums special : Bool) (rng : List Nat) :
    Except String (List Char) × List Nat :=
  let chars := ascii_lowercase ++ (if upper then ascii_uppercase else [])
      ++ (if nums then digits else []) ++ (if special then punctuation else [])
  let required_groups := (if upper then [ascii_uppercase] else [])
      ++ (if nums then [digits] else []) ++ (if special then [punctuation] else [])
  if chars.isEmpty then
    (Except.error "No character sets selected", rng)
  else
    let (req, rng1) := pick_required required_groups rng
    let (filled, rng2) := fill_chars chars (length - req.length) req rng1
    let (shuffled, rng3) := shuffle filled rng2
    (Except.ok shuffled, rng3)

/-- Number of enabled optional groups (`len(required_groups)`). -/
def enabled_group_count (upper nums special : Bool) : Nat :=
  (if upper then 1 else 0) + (if nums then 1 else 0) + (if special then 1 else 0)

/-- Number of active classes: lowercase plus the enabled optional groups. -/
def active_class_count (upper nums special : Bool) : Nat :=
  1 + enabled_group_count upper nums special

/-! ### `/api/generate` handler (`api_generate`, app.py lines 168-241) -/

inductive ApiResp where
  | rateLimited (retry_after : Int)
  | badRequest (msg : String)
  | ok (passwords : List (List Char))
deriving DecidableEq

/-- The two clamping statements `if count < 1: count = 1` and
`if count > 100: count = 100`, run in sequence. -/
def clamp_count (count : Int) : Int :=
  let c1 := if count < 1 then 1 else count
  if c1 > 100 then 100 else c1

/-- The list comprehension `[generate_password(...) for _ in range(count)]`;
a `ValueError` aborts the whole comprehension. -/
def gen_many : Nat → Nat → Bool → Bool → Bool → List Nat → Except String (List (List Char)) × List Nat
  | 0, _, _, _, _, rng => (Except.ok [], rng)
  | Nat.succ k, length, u, n, s, rng =>
    match generate_password length u n s rng with
    | (Except.ok pw, rng') =>
      match gen_many k length u n s rng' with
      | (Except.ok rest, rng'') => (Except.ok (pw :: rest), rng'')
      | (Except.error e, rng'') => (Except.error e, rng'')
    | (Except.error e, rng') => (Except.error e, rng')

/-- `/api/generate` with `length` and `count` already parsed to integers and
`now` explicit.  Logging and the stats counters are external sinks and are
not modelled. -/
def api_generate (st : RateState) (ip : String) (provided_key : Option String) (now : Int)
    (length count : Int) (upper nums special : Bool) (rng : List Nat) : ApiResp × RateState :=
  let is_trusted := provided_key == some API_KEY
  let (dec, st') := check_rate_limit st ip is_trusted now
  if dec.1 = false then
    (ApiResp.rateLimited (dec.2.getD 0), st')
  else if ¬ (8 ≤ length ∧ length ≤ 128) then
    (ApiResp.badRequest "Length must be between 8 and 128", st')
  else
    let c := clamp_count count
    match gen_many c.toNat length.toNat upper nums special rng with
    | (Except.ok pws, _) => (ApiResp.ok pws, st')
    | (Except.error e, _) => (ApiResp.badRequest e, st')

/-- Runs `check_rate_limit_with` once per timestamp, threading the state,
and collects the decisions. -/
def run_checks (window limit : Int) (ip : String) (times : List Int) (st : RateState) :
    List (Bool × Option Int) × RateState :=
  match times with
  | [] => ([], st)
  | t :: ts =>
    let (d, st') := check_rate_limit_with window limit st ip t
    let (ds, st'') := run_checks window limit ip ts st'
    (d :: ds, st'')

/-! ### Rate limiter lemmas -/

lemma prune_bucket_suffix (window now : Int) :
    ∀ bucket : List Int, prune_bucket window now bucket <:+ bucket := by
  intro bucket
  induction bucket with
  | nil => simp [prune_bucket]
  | cons t rest ih =>
    by_cases h : now - t > window
    · simpa [prune_bucket, h] using ih.trans (List.suffix_cons t rest)
    · simp [prune_bucket, h]

lemma prune_bucket_head (window now : Int) :
    ∀ (bucket : List Int) (t : Int) (rest : List Int),
      prune_bucket window now bucket = t :: rest → now - t ≤ window := by
  intro bucket
  induction bucket with
  | nil => intro t rest h; simp [prune_bucket] at h
  | cons b bs ih =>
    intro t rest h
    by_cases hc : now - b > window
    · simp only [prune_bucket, if_pos hc] at h
      exact ih t rest h
    · simp only [prune_bucket, if_neg hc, List.cons.injEq] at h
      omega

lemma prune_bucket_mem_iff (window now : Int) :
    ∀ (bucket : List Int), List.Pairwise (fun a b => a ≤ b) bucket →
      ∀ t : Int, (t ∈ prune_bucket window now bucket ↔ t ∈ bucket ∧ now - t ≤ window) := by
  intro bucket
  induction bucket with
  | nil => intro _ t; simp [prune_bucket]
  | cons b bs ih =>
    intro hp t
    rw [List.pairwise_cons] at hp
    by_cases hc : now - b > window
    · rw [prune_bucket, if_pos hc, ih hp.2 t]
      constructor
      · rintro ⟨ht, hle⟩; exact ⟨List.mem_cons_of_mem b ht, hle⟩
      · rintro ⟨ht, hle⟩
        rcases List.mem_cons.mp ht with rfl | ht'
        · omega
        · exact ⟨ht', hle⟩
    · rw [prune_bucket, if_neg hc]
      constructor
      · intro ht
        refine ⟨ht, ?_⟩
        rcases List.mem_cons.mp ht with rfl | ht'
        · omega
        · have := hp.1 t ht'
          omega
      · exact fun h => h.1

lemma check_with_state_other (window limit : Int) (st : RateState) (ip : String) (now : Int)
    (k : String) (hk : k ≠ ip) :
    (check_rate_limit_with window limit st ip now).2 k = st k := by
  rw [check_rate_limit_with]
  split
  · simp [hk]
  · simp [hk]

lemma check_with_decision_congr (window limit : Int) (st st' : RateState) (ip : String)
    (now : Int) (h : st ip = st' ip) :
    (check_rate_limit_with window limit st ip now).1 =
      (check_rate_limit_with window limit st' ip now).1 := by
  simp only [check_rate_limit_with, h]
  split <;> rfl

lemma check_with_rejected (window limit : Int) (st : RateState) (ip : String) (now : Int)
    (hrej : (check_rate_limit_with window limit st ip now).1.1 = false) :
    (check_rate_limit_with window limit st ip now).2 ip =
      prune_bucket window now (st ip) := by
  rw [check_rate_limit_with] at hrej ⊢
  split at hrej
  · rename_i hcond
    rw [if_pos hcond]
    simp
  · simp at hrej

/-! ### Shuffle is a permutation -/

lemma get_cons_set_perm :
    ∀ (t : List Char) (j : Nat) (hj : j < t.length) (a : Char),
      List.Perm (t.get ⟨j, hj⟩ :: t.set j a) (a :: t) := by
  intro t
  induction t with
  | nil => intro j hj a; simp at hj
  | cons b s ih =>
    intro j hj a
    cases j with
    | zero => simpa [List.set] using List.Perm.swap a b s
    | succ j' =>
      have hj' : j' < s.length := Nat.lt_of_succ_lt_succ hj
      show List.Perm (s.get ⟨j', hj'⟩ :: b :: s.set j' a) (a :: b :: s)
      have h1 : List.Perm (s.get ⟨j', hj'⟩ :: b :: s.set j' a)
          (b :: s.get ⟨j', hj'⟩ :: s.set j' a) := List.Perm.swap b (s.get ⟨j', hj'⟩) _
      have h2 : List.Perm (b :: s.get ⟨j', hj'⟩ :: s.set j' a) (b :: a :: s) :=
        List.Perm.cons b (ih j' hj' a)
      have h3 : List.Perm (b :: a :: s) (a :: b :: s) := List.Perm.swap a b s
      exact (h1.trans h2).trans h3

lemma set_set_swap_perm :
    ∀ (xs : List Char) (i j : Nat) (hi : i < xs.length) (hj : j < xs.length),
      List.Perm ((xs.set i (xs.get ⟨j, hj⟩)).set j (xs.get ⟨i, hi⟩)) xs := by
  intro xs
  induction xs with
  | nil => intro i j hi _; simp at hi
  | cons a t ih =>
    intro i j hi hj
    cases i with
    | zero =>
      cases j with
      | zero => simp [List.set]
      | succ j' =>
        have hj' : j' < t.length := Nat.lt_of_succ_lt_succ hj
        simpa [List.set] using get_cons_set_perm t j' hj' a
    | succ i' =>
      have hi' : i' < t.length := Nat.lt_of_succ_lt_succ hi
      cases j with
      | zero => simpa [List.set] using get_cons_set_perm t i' hi' a
      | succ j' =>
        have hj' : j' < t.length := Nat.lt_of_succ_lt_succ hj
        simpa [List.set] using List.Perm.cons a (ih i' j' hi' hj')

lemma list_swap_perm (xs : List Char) (i j : Nat) : List.Perm (list_swap xs i j) xs := by
  rw [list_swap]
  split
  · rename_i h
    exact set_set_swap_perm xs i j h.1 h.2
  · exact List.Perm.refl xs

lemma shuffle_aux_perm : ∀ (k : Nat) (xs : List Char) (rng : List Nat),
    List.Perm (shuffle_aux xs rng k).1 xs := by
  intro k
  induction k with
  | zero => intro xs rng; exact List.Perm.refl xs
  | succ k ih =>
    intro xs rng
    rw [shuffle_aux]
    exact (ih _ _).trans (list_swap_perm xs _ _)

lemma shuffle_perm (xs : List Char) (rng : List Nat) : List.Perm (shuffle xs rng).1 xs :=
  shuffle_aux_perm _ xs rng

/-! ### Generator lemmas -/

lemma choice_mem (g : List Char) (rng : List Nat) (h : g ≠ []) : (choice g rng).1 ∈ g := by
  have hlen : 0 < g.length := List.length_pos.mpr h
  have hlt : (next_rand rng).1 % g.length < g.length := Nat.mod_lt _ hlen
  simp only [choice]
  rw [List.getD_eq_getElem?_getD, List.getElem?_eq_getElem hlt]
  simp only [Option.getD_some]
  exact List.getElem_mem hlt

lemma pick_required_length : ∀ (gs : List (List Char)) (rng : List Nat),
    (pick_required gs rng).1.length = gs.length := by
  intro gs
  induction gs with
  | nil => intro rng; rfl
  | cons g gs ih => intro rng; simp [pick_required, ih]

lemma pick_required_mem : ∀ (gs : List (List Char)) (rng : List Nat) (g : List Char),
    g ∈ gs → g ≠ [] → ∃ c ∈ (pick_required gs rng).1, c ∈ g := by
  intro gs
  induction gs with
  | nil => intro rng g hg; simp at hg
  | cons g0 gs ih =>
    intro rng g hg hne
    rcases List.mem_cons.mp hg with rfl | hg'
    · exact ⟨(choice g rng).1, by simp [pick_required], choice_mem g rng hne⟩
    · obtain ⟨c, hc, hcg⟩ := ih (choice g0 rng).2 g hg' hne
      exact ⟨c, by simp [pick_required, hc], hcg⟩

lemma fill_chars_length (chars : List Char) : ∀ (k : Nat) (acc : List Char) (rng : List Nat),
    (fill_chars chars k acc rng).1.length = acc.length + k := by
  intro k
  induction k with
  | zero => intro acc rng; rfl
  | succ k ih =>
    intro acc rng
    rw [fill_chars, ih]
    simp; omega

lemma fill_chars_acc_sub (chars : List Char) : ∀ (k : Nat) (acc : List Char) (rng : List Nat)
    (c : Char), c ∈ acc → c ∈ (fill_chars chars k acc rng).1 := by
  intro k
  induction k with
  | zero => intro acc rng c hc; exact hc
  | succ k ih =>
    intro acc rng c hc
    rw [fill_chars]
    exact ih _ _ c (List.mem_append_left _ hc)

lemma fill_chars_mem (chars : List Char) (hch : chars ≠ []) :
    ∀ (k : Nat) (acc : List Char) (rng : List Nat) (c : Char),
      c ∈ (fill_chars chars k acc rng).1 → c ∈ acc ∨ c ∈ chars := by
  intro k
  induction k with
  | zero => intro acc rng c hc; exact Or.inl hc
  | succ k ih =>
    intro acc rng c hc
    rw [fill_chars] at hc
    rcases ih _ _ c hc with hacc | hin
    · rcases List.mem_append.mp hacc with h | h
      · exact Or.inl h
      · rcases List.mem_singleton.mp h with rfl
        exact Or.inr (choice_mem chars rng hch)
    · exact Or.inr hin

lemma required_groups_length (upper nums special : Bool) :
    ((if upper then [ascii_uppercase] else []) ++ (if nums then [digits] else [])
      ++ (if special then [punctuation] else [])).length
      = enabled_group_count upper nums special := by
  cases upper <;> cases nums <;> cases special <;> rfl

lemma chars_ne_nil (upper nums special : Bool) :
    (ascii_lowercase ++ (if upper then ascii_uppercase else [])
      ++ (if nums then digits else []) ++ (if special then punctuation else [])) ≠ [] := by
  apply List.ne_nil_of_mem (a := 'a')
  apply List.mem_append_left
  apply List.mem_append_left
  apply List.mem_append_left
  decide

/-- Everything `generate_password` guarantees for every input: it never fails,
the output length is `max length (number of enabled groups)`, each enabled
group is represented, and with no enabled group every character is lowercase. -/
lemma generate_password_spec (length : Nat) (upper nums special : Bool) (rng : List Nat) :
    ∃ out, (generate_password length upper nums special rng).1 = Except.ok out ∧
      out.length = max length (enabled_group_count upper nums special) ∧
      (upper = true → ∃ c ∈ out, c ∈ ascii_uppercase) ∧
      (nums = true → ∃ c ∈ out, c ∈ digits) ∧
      (special = true → ∃ c ∈ out, c ∈ punctuation) ∧
      (upper = false → nums = false → special = false → ∀ c ∈ out, c ∈ ascii_lowercase) := by
  have hch := chars_ne_nil upper nums special
  have hE : (ascii_lowercase ++ (if upper then ascii_uppercase else [])
      ++ (if nums then digits else []) ++ (if special then punctuation else [])).isEmpty
      = false := List.isEmpty_eq_false.mpr hch
  rcases hpick : pick_required ((if upper then [ascii_uppercase] else [])
      ++ (if nums then [digits] else []) ++ (if special then [punctuation] else [])) rng
    with ⟨req, rng1⟩
  rcases hfill : fill_chars (ascii_lowercase ++ (if upper then ascii_uppercase else [])
      ++ (if nums then digits else []) ++ (if special then punctuation else []))
      (length - req.length) req rng1 with ⟨filled, rng2⟩
  rcases hshuf : shuffle filled rng2 with ⟨shuffled, rng3⟩
  have hres : (generate_password length upper nums special rng).1 = Except.ok shuffled := by
    simp only [generate_password, hE, Bool.false_eq_true, if_false, hpick, hfill, hshuf]
  have hreq1 : req = (pick_required ((if upper then [ascii_uppercase] else [])
      ++ (if nums then [digits] else []) ++ (if special then [punctuation] else [])) rng).1 := by
    rw [hpick]
  have hreqlen : req.length = enabled_group_count upper nums special := by
    rw [hreq1, pick_required_length, required_groups_length]
  have hfilled1 : filled = (fill_chars (ascii_lowercase ++ (if upper then ascii_uppercase else [])
      ++ (if nums then digits else []) ++ (if special then punctuation else []))
      (length - req.length) req rng1).1 := by
    rw [hfill]
  have hfilllen : filled.length = req.length + (length - req.length) := by
    rw [hfilled1, fill_chars_length]
  have hperm : List.Perm shuffled filled := by
    have := shuffle_perm filled rng2
    rw [hshuf] at this
    exact this
  have hlen : shuffled.length = max length (enabled_group_count upper nums special) := by
    rw [hperm.length_eq, hfilllen, hreqlen]
    omega
  have hmemgroup : ∀ g : List Char, g ∈ ((if upper then [ascii_uppercase] else [])
      ++ (if nums then [digits] else []) ++ (if special then [punctuation] else [])) →
      g ≠ [] → ∃ c ∈ shuffled, c ∈ g := by
    intro g hg hgne
    obtain ⟨c, hcreq, hcg⟩ := pick_required_mem _ rng g hg hgne
    rw [← hreq1] at hcreq
    have hcfill : c ∈ filled := by
      rw [hfilled1]
      exact fill_chars_acc_sub _ _ _ _ c hcreq
    exact ⟨c, hperm.mem_iff.mpr hcfill, hcg⟩
  refine ⟨shuffled, hres, hlen, ?_, ?_, ?_, ?_⟩
  · intro hu
    apply hmemgroup ascii_uppercase _ (by decide)
    simp [hu]
  · intro hn
    apply hmemgroup digits _ (by decide)
    simp [hn]
  · intro hs
    apply hmemgroup punctuation _ (by decide)
    simp [hs]
  · intro hu hn hs c hc
    subst hu; subst hn; subst hs
    have hcreq : req = [] := by
      have := hreqlen
      simp [enabled_group_count] at this
      exact this
    have hcfill : c ∈ filled := hperm.mem_iff.mp hc
    rw [hfilled1] at hcfill
    rcases fill_chars_mem _ hch _ _ _ c hcfill with h | h
    · rw [hcreq] at h; simp at h
    · simpa using h

lemma gen_many_ok : ∀ (k length : Nat) (u n s : Bool) (rng : List Nat),
    ∃ pws rng', gen_many k length u n s rng = (Except.ok pws, rng') ∧ pws.length = k := by
  intro k
  induction k with
  | zero => intro length u n s rng; exact ⟨[], rng, rfl, rfl⟩
  | succ k ih =>
    intro length u n s rng
    obtain ⟨out, hout, -⟩ := generate_password_spec length u n s rng
    rcases hg : generate_password length u n s rng with ⟨res, rng0⟩
    have hres : res = Except.ok out := by rw [hg] at hout; exact hout
    subst hres
    obtain ⟨pws, rng', hrec, hlen⟩ := ih length u n s rng0
    refine ⟨out :: pws, rng', ?_, by simp [hlen]⟩
    rw [gen_many, hg]
    show (match gen_many k length u n s rng0 with
      | (Except.ok rest, rng'') => (Except.ok (out :: rest), rng'')
      | (Except.error e, rng'') => (Except.error e, rng'')) = (Except.ok (out :: pws), rng')
    rw [hrec]

/-! ### Claim theorems -/

/-- C1 (amended): with `window_seconds=60` and `limit=3`, checks for identity
`"A"` at times 0, 1, 2 are admitted, the fourth check at time 3 is rejected
with `retry_after_seconds = 57` (the code computes
`int(window - (now - oldest))`, which on integer timestamps is
`window - (now - oldest)`, not the spec's `+1` variant of 58), and a check at
time 61 is admitted.  In general every rejected check (for a positive limit)
returns `retry_after_seconds = window - (now - oldest_remaining_timestamp)`,
which is always ≥ 0; on integer inputs this coincides with the claimed
`ceil` and no clamping is ever needed. -/
theorem rate_limit_window_correctness :
    (run_checks 60 3 "A" [0, 1, 2, 3, 61] (fun _ => [])).1 =
      [(true, none), (true, none), (true, none), (false, some 57), (true, none)] ∧
    ∀ (window limit : Int) (st : RateState) (ip : String) (now : Int),
      0 < limit →
      (check_rate_limit_with window limit st ip now).1.1 = false →
      ∃ r, (check_rate_limit_with window limit st ip now).1.2 = some r ∧
        r = window - (now - (prune_bucket window now (st ip)).headD 0) ∧ 0 ≤ r := by
  constructor
  · decide
  · intro window limit st ip now hlim hrej
    simp only [check_rate_limit_with] at hrej ⊢
    by_cases hc : limit ≤ ((prune_bucket window now (st ip)).length : Int)
    · rw [if_pos hc] at hrej ⊢
      refine ⟨window - (now - (prune_bucket window now (st ip)).headD 0), rfl, rfl, ?_⟩
      have hpos : 0 < (prune_bucket window now (st ip)).length := by
        by_contra h
        have : (prune_bucket window now (st ip)).length = 0 := by omega
        rw [this] at hc
        omega
      obtain ⟨t, rest, hb⟩ : ∃ t rest, prune_bucket window now (st ip) = t :: rest := by
        cases hcase : prune_bucket window now (st ip) with
        | nil => rw [hcase] at hpos; simp at hpos
        | cons t rest => exact ⟨t, rest, rfl⟩
      have hage : now - t ≤ window := prune_bucket_head window now (st ip) t rest hb
      rw [hb]
      simp only [List.headD_cons]
      omega
    · rw [if_neg hc] at hrej
      simp at hrej

/-- C1 as frozen is false on the code: the fourth check at time 3 is rejected
with `retry_after_seconds = 57`, not 58. -/
theorem rate_limit_retry_is_57_not_58 :
    (run_checks 60 3 "A" [0, 1, 2, 3] (fun _ => [])).1 =
      [(true, none), (true, none), (true, none), (false, some 57)] ∧
    ((false, some 57) : Bool × Option Int) ≠ (false, some 58) := by
  constructor
  · decide
  · decide

/-- C2 (amended): a stored timestamp whose age equals exactly
`window_seconds` is NOT expired: the pruning loop only removes entries with
`now - timestamp > window_seconds`, so the window is the closed interval
`[now - window_seconds, now]`.  For a non-decreasing bucket the retained
entries are exactly those with age ≤ `window_seconds`, and in particular an
entry at the exact boundary is retained and still counts toward the limit. -/
theorem prune_boundary_closed_window (window now : Int) (bucket : List Int)
    (hs : List.Pairwise (fun a b => a ≤ b) bucket) :
    (∀ t : Int, t ∈ prune_bucket window now bucket ↔ t ∈ bucket ∧ now - t ≤ window) ∧
    (∀ t ∈ bucket, now - t = window → t ∈ prune_bucket window now bucket) := by
  refine ⟨prune_bucket_mem_iff window now bucket hs, ?_⟩
  intro t ht heq
  exact (prune_bucket_mem_iff window now bucket hs t).mpr ⟨ht, le_of_eq heq⟩

theorem prune_boundary_closed_window_witness :
    List.Pairwise (fun a b : Int => a ≤ b) [0, 30, 60] ∧
    ((0 : Int) ∈ prune_bucket 60 60 [0, 30, 60] ↔
      (0 : Int) ∈ ([0, 30, 60] : List Int) ∧ (60 : Int) - 0 ≤ 60) :=
  ⟨by decide, (prune_boundary_closed_window 60 60 [0, 30, 60] (by decide)).1 0⟩

/-- C2 as frozen is false on the code: an entry of age exactly
`window_seconds` (timestamp 0 checked at `now = 60` with `window = 60`) is
not pruned, and with `limit = 1` it causes the check to be rejected, where
the claim's half-open window would have admitted it. -/
theorem boundary_timestamp_not_pruned :
    prune_bucket 60 60 [0] = [0] ∧
    (check_rate_limit_with 60 1 (fun _ => [0]) "A" 60).1 = (false, some 0) := by
  constructor
  · decide
  · decide

/-- C7: a check for one identity leaves every other identity's bucket
untouched, and the decision for an identity depends only on that identity's
own bucket: after exhausting identity `ip`, the admission decision for a
different identity `ip'` is the same as it would have been on the original
state. -/
theorem rate_limit_identity_isolation (st : RateState) (ip ip' : String) (tr tr' : Bool)
    (now now' : Int) (hne : ip' ≠ ip) :
    (check_rate_limit st ip tr now).2 ip' = st ip' ∧
    (check_rate_limit ((check_rate_limit st ip tr now).2) ip' tr' now').1 =
      (check_rate_limit st ip' tr' now').1 := by
  have hframe : (check_rate_limit st ip tr now).2 ip' = st ip' :=
    check_with_state_other _ _ st ip now ip' hne
  exact ⟨hframe, check_with_decision_congr _ _ _ st ip' now' hframe⟩

theorem rate_limit_identity_isolation_witness :
    "B" ≠ "A" ∧
    ((check_rate_limit (fun _ => []) "A" false 0).2 "B" = ([] : List Int) ∧
    (check_rate_limit ((check_rate_limit (fun _ => []) "A" false 0).2) "B" false 0).1 =
      (check_rate_limit (fun _ => []) "B" false 0).1) :=
  ⟨by decide, rate_limit_identity_isolation (fun _ => []) "A" "B" false false 0 0 (by decide)⟩

/-- C10: a rejected check never appends the current timestamp: on rejection
the identity's stored sequence becomes exactly the pruned old sequence, which
is a suffix of the old one, so its length never increases on a rejected
call. -/
theorem rejected_check_no_append (window limit : Int) (st : RateState) (ip : String)
    (now : Int) (hrej : (check_rate_limit_with window limit st ip now).1.1 = false) :
    (check_rate_limit_with window limit st ip now).2 ip = prune_bucket window now (st ip) ∧
    prune_bucket window now (st ip) <:+ st ip ∧
    ((check_rate_limit_with window limit st ip now).2 ip).length ≤ (st ip).length := by
  have h1 := check_with_rejected window limit st ip now hrej
  have h2 := prune_bucket_suffix window now (st ip)
  exact ⟨h1, h2, by rw [h1]; exact h2.length_le⟩

theorem rejected_check_no_append_witness :
    (check_rate_limit_with 60 3 (fun _ => [0, 1, 2]) "A" 3).1.1 = false ∧
    ((check_rate_limit_with 60 3 (fun _ => [0, 1, 2]) "A" 3).2 "A" =
        prune_bucket 60 3 [0, 1, 2] ∧
      prune_bucket 60 3 [0, 1, 2] <:+ [0, 1, 2] ∧
      ((check_rate_limit_with 60 3 (fun _ => [0, 1, 2]) "A" 3).2 "A").length ≤
        ([0, 1, 2] : List Int).length) :=
  ⟨by decide, rejected_check_no_append 60 3 (fun _ => [0, 1, 2]) "A" 3 (by decide)⟩

/-- C3 (amended): every generated password contains at least one character
from each enabled class (uppercase, digits, special) — with no lower bound on
`length` needed, since the representatives are placed before the fill loop.
A lowercase character, however, is only guaranteed when no optional class is
enabled (and `length ≥ 1`): lowercase is not in `required_groups`, so with
an enabled class and a small length the output can contain no lowercase at
all. -/
theorem generate_class_inclusion (length : Nat) (upper nums special : Bool) (rng : List Nat) :
    ∃ out, (generate_password length upper nums special rng).1 = Except.ok out ∧
      (upper = true → ∃ c ∈ out, c ∈ ascii_uppercase) ∧
      (nums = true → ∃ c ∈ out, c ∈ digits) ∧
      (special = true → ∃ c ∈ out, c ∈ punctuation) ∧
      (upper = false → nums = false → special = false → 1 ≤ length →
        ∃ c ∈ out, c ∈ ascii_lowercase) := by
  obtain ⟨out, h1, hlen, hu, hn, hsp, hlow⟩ := generate_password_spec length upper nums special rng
  refine ⟨out, h1, hu, hn, hsp, ?_⟩
  intro hu' hn' hs' hl
  have houtlen : out.length = length := by
    rw [hlen, hu', hn', hs']
    simp [enabled_group_count]
  cases hout : out with
  | nil => rw [hout] at houtlen; simp at houtlen; omega
  | cons c cs =>
    refine ⟨c, by simp [hout], ?_⟩
    have : c ∈ out := by rw [hout]; exact List.mem_cons_self c cs
    exact hlow hu' hn' hs' c this

/-- C3 as frozen is false on the code: with `length = 1` and only `upper`
enabled, the output is a single uppercase character for any randomness — it
contains no lowercase letter, though the claim promises one whenever
`length ≥ 1`. -/
theorem generate_no_lowercase_example :
    (generate_password 1 true false false [0]).1 = Except.ok ['A'] ∧
    ∀ c ∈ (['A'] : List Char), c ∉ ascii_lowercase := by
  constructor
  · rfl
  · decide

/-- C4 (amended): `generate_password` never raises a length error.  With
upper, digits and special all enabled, `length = 4` succeeds with a
4-character output, and `length = 3` also succeeds — the fill loop
`range(len(password_chars), length)` is simply empty, and the function
returns a 3-character password instead of raising `InvalidLength`. -/
theorem generate_no_invalid_length (rng rng' : List Nat) :
    (∃ out, (generate_password 4 true true true rng).1 = Except.ok out ∧ out.length = 4) ∧
    (∃ out, (generate_password 3 true true true rng').1 = Except.ok out ∧ out.length = 3) := by
  constructor
  · obtain ⟨out, h1, hlen, -⟩ := generate_password_spec 4 true true true rng
    exact ⟨out, h1, by rw [hlen]; decide⟩
  · obtain ⟨out, h1, hlen, -⟩ := generate_password_spec 3 true true true rng'
    exact ⟨out, h1, by rw [hlen]; decide⟩

/-- C4 as frozen is false on the code: `length = 3` with all three flags
enabled does not raise — it returns the 3-character password built from the
three group representatives (here with the all-zeros randomness stream). -/
theorem generate_length3_succeeds :
    (generate_password 3 true true true [0, 0, 0]).1 = Except.ok ['0', '!', 'A'] := rfl

/-- C5: for every valid input — `length` at least the number of active
classes (lowercase plus the enabled extras) — the generated password has
exactly `length` characters. -/
theorem generate_length_exact (length : Nat) (upper nums special : Bool) (rng : List Nat)
    (h : active_class_count upper nums special ≤ length) :
    ∃ out, (generate_password length upper nums special rng).1 = Except.ok out ∧
      out.length = length := by
  obtain ⟨out, h1, hlen, -⟩ := generate_password_spec length upper nums special rng
  refine ⟨out, h1, ?_⟩
  rw [hlen]
  have hle : enabled_group_count upper nums special ≤ length := by
    rw [active_class_count] at h
    omega
  exact Nat.max_eq_left hle

theorem generate_length_exact_witness :
    active_class_count true true true ≤ 8 ∧
    ∃ out, (generate_password 8 true true true [0, 1, 2, 3, 4, 5, 6, 7]).1 = Except.ok out ∧
      out.length = 8 :=
  ⟨by decide, generate_length_exact 8 true true true [0, 1, 2, 3, 4, 5, 6, 7] (by decide)⟩

/-- C8: the `InvalidComposition` branch (`if not chars: raise ValueError`)
is unreachable for every combination of the three flags, because
`string.ascii_lowercase` is unconditionally included in `chars`:
`generate_password` always returns a password. -/
theorem generate_composition_error_unreachable (length : Nat) (upper nums special : Bool)
    (rng : List Nat) :
    ∃ out, (generate_password length upper nums special rng).1 = Except.ok out := by
  obtain ⟨out, h1, -⟩ := generate_password_spec length upper nums special rng
  exact ⟨out, h1⟩

/-- C9 (implicit): for every input `generate_password` returns, without
raising, a string of exactly `max length g` characters, where `g` is the
number of enabled groups among upper, digits and special; in particular when
`length < g` the output is longer than requested instead of an error. -/
theorem generate_output_length_max (length : Nat) (upper nums special : Bool)
    (rng : List Nat) :
    ∃ out, (generate_password length upper nums special rng).1 = Except.ok out ∧
      out.length = max length (enabled_group_count upper nums special) := by
  obtain ⟨out, h1, hlen, -⟩ := generate_password_spec length upper nums special rng
  exact ⟨out, h1, hlen⟩

/-- C6: an out-of-range `count` is clamped to the nearest bound of
`[1, 100]` rather than rejected: whenever the rate limiter admits the call
and `length` is in `[8, 128]`, the handler returns exactly
`clamp_count count` passwords, where `clamp_count 250 = 100` and
`clamp_count 0 = 1`. -/
theorem api_generate_count_clamp (st : RateState) (ip : String) (key : Option String)
    (now length count : Int) (upper nums special : Bool) (rng : List Nat)
    (h8 : 8 ≤ length) (h128 : length ≤ 128)
    (hadm : (check_rate_limit st ip (key == some API_KEY) now).1.1 = true) :
    ∃ pws, (api_generate st ip key now length count upper nums special rng).1 = ApiResp.ok pws ∧
      pws.length = (clamp_count count).toNat ∧
      1 ≤ clamp_count count ∧ clamp_count count ≤ 100 ∧
      clamp_count 250 = 100 ∧ clamp_count 0 = 1 := by
  obtain ⟨pws, rng', hg, hlen⟩ :=
    gen_many_ok (clamp_count count).toNat length.toNat upper nums special rng
  have hclamp : 1 ≤ clamp_count count ∧ clamp_count count ≤ 100 := by
    rw [clamp_count]
    constructor <;> split_ifs <;> omega
  refine ⟨pws, ?_, hlen, hclamp.1, hclamp.2, by decide, by decide⟩
  rcases hc : check_rate_limit st ip (key == some API_KEY) now with ⟨dec, st'⟩
  have hdec : dec.1 = true := by rw [hc] at hadm; exact hadm
  rw [api_generate]
  rw [hc]
  show (if dec.1 = false then (ApiResp.rateLimited (dec.2.getD 0), st')
    else if ¬ (8 ≤ length ∧ length ≤ 128) then
      (ApiResp.badRequest "Length must be between 8 and 128", st')
    else
      match gen_many (clamp_count count).toNat length.toNat upper nums special rng with
      | (Except.ok pws, _) => (ApiResp.ok pws, st')
      | (Except.error e, _) => (ApiResp.badRequest e, st')).1 = ApiResp.ok pws
  rw [hdec]
  rw [if_neg (by simp), if_neg (by simp [h8, h128]), hg]

theorem api_generate_count_clamp_witness :
    ((8 : Int) ≤ 16 ∧ (16 : Int) ≤ 128 ∧
      (check_rate_limit (fun _ => []) "x" ((none : Option String) == some API_KEY) 0).1.1
        = true) ∧
    (∃ pws, (api_generate (fun _ => []) "x" none 0 16 250 true true true []).1
        = ApiResp.ok pws ∧
      pws.length = (clamp_count 250).toNat ∧
      1 ≤ clamp_count 250 ∧ clamp_count 250 ≤ 100 ∧
      clamp_count 250 = 100 ∧ clamp_count 0 = 1) ∧
    (∃ pws, (api_generate (fun _ => []) "x" none 0 16 0 true true true []).1
        = ApiResp.ok pws ∧
      pws.length = (clamp_count 0).toNat ∧
      1 ≤ clamp_count 0 ∧ clamp_count 0 ≤ 100 ∧
      clamp_count 250 = 100 ∧ clamp_count 0 = 1) :=
  ⟨⟨by decide, by decide, by decide⟩,
    api_generate_count_clamp (fun _ => []) "x" none 0 16 250 true true true []
      (by decide) (by decide) (by decide),
    api_generate_count_clamp (fun _ => []) "x" none 0 16 0 true true true []
      (by decide) (by decide) (by decide)⟩

end Passgen
